import Mathlib

/-!
Verification of the column-merge engine implemented in `src/join_csv.py`.

Strings are modelled as Lean `String`s; the period-label regular
expressions of the source are unfolded into explicit character-list
matches; pandas data frames are modelled as row/column label lists plus a
cell lookup function.  Python float ranks (0.25, 0.5, 0.55, 0.75, 0.9,
0.95, 1.0) are all exactly representable binary floats compared by value,
so modelling them as the equal rationals preserves every comparison.
-/

namespace JoinCsv

/-- Period sort key: a (year, rank) pair as returned by the source function
`get_period_value`. -/
abbrev PKey := ℕ × ℚ

/-- Source `is_year_column`: test for the regular expression `^20\d{2}$`,
unfolded on the character list. -/
def isYearChars : List Char → Bool
  | [a0, a1, a, b] => a0 == '2' && a1 == '0' && a.isDigit && b.isDigit
  | _ => false

/-- Source `is_year_column` on strings. -/
def is_year_column (s : String) : Bool := isYearChars s.data

/-- Source `is_quarter_column`: test for `^20\d{2}Q[1-4]$`. -/
def isQuarterChars : List Char → Bool
  | [a0, a1, a, b, t, q] =>
      a0 == '2' && a1 == '0' && a.isDigit && b.isDigit && t == 'Q' &&
        (q == '1' || q == '2' || q == '3' || q == '4')
  | _ => false

/-- Source `is_quarter_column` on strings. -/
def is_quarter_column (s : String) : Bool := isQuarterChars s.data

/-- Source `is_half_year_column`: test for `^20\d{2}H[1-2]$`. -/
def isHalfYearChars : List Char → Bool
  | [a0, a1, a, b, t, h] =>
      a0 == '2' && a1 == '0' && a.isDigit && b.isDigit && t == 'H' &&
        (h == '1' || h == '2')
  | _ => false

/-- Source `is_half_year_column` on strings. -/
def is_half_year_column (s : String) : Bool := isHalfYearChars s.data

/-- Source `get_year_from_period`: the regex `^(20\d{2})[QH][1-4]$`; on a
match the captured leading four digits are returned as a string. -/
def get_year_from_period (s : String) : Option String :=
  match s.data with
  | [a0, a1, a, b, t, q] =>
      if a0 == '2' && a1 == '0' && a.isDigit && b.isDigit &&
          (t == 'Q' || t == 'H') &&
          (q == '1' || q == '2' || q == '3' || q == '4') then
        some (String.mk [a0, a1, a, b])
      else none
  | _ => none

/-- Numeric value of a decimal digit character (Python `int` on one digit). -/
def digitVal (c : Char) : ℕ := c.toNat - 48

/-- Numeric value of a year label `20ab`, as Python `int` parses it. -/
def yearNum (a b : Char) : ℕ := 2000 + 10 * digitVal a + digitVal b

/-- Branch of source `get_period_value` for the regex
`^(20\d{2})([QH])([1-4])$`.  For `Q` the rank is `period_num * 0.25` except
that Q4 is ranked 0.9; for `H` subperiod 1 is ranked 0.55 and every other
matched subperiod (2, 3 or 4 - the character class is the shared `[1-4]`)
is ranked 0.95. -/
def qhKey : List Char → Option PKey
  | [a0, a1, a, b, t, q] =>
      if a0 == '2' && a1 == '0' && a.isDigit && b.isDigit &&
          (t == 'Q' || t == 'H') &&
          (q == '1' || q == '2' || q == '3' || q == '4') then
        some (if t == 'Q' then
                (if q == '4' then (yearNum a b, mkRat 9 10)
                 else (yearNum a b, mkRat (digitVal q) 4))
              else
                (if q == '1' then (yearNum a b, mkRat 11 20)
                 else (yearNum a b, mkRat 19 20)))
      else none
  | _ => none

/-- Source `get_period_value`: total chronological sort key of a period
label.  Checks the year shape first, then the quarter/half-year regex,
then the exact string LTM, and defaults to `(0, 0)`. -/
def get_period_value (s : String) : PKey :=
  if is_year_column s then
    match s.data with
    | _ :: _ :: a :: b :: _ => (yearNum a b, 1)
    | _ => (0, 0)
  else
    match qhKey s.data with
    | some k => k
    | none => if s = "LTM" then (9999, 1) else (0, 0)

/-- Specification-side sort key, written from the amended claim C2: a year
shape `20\d{2}` maps to rank 1; quarter shapes Q1..Q4 map to ranks 1/4,
1/2, 3/4 and 9/10; half-year shape H1 maps to 11/20 and H2 to 19/20, and
the shapes H3 and H4 (which the code's combined `[QH][1-4]` class also
accepts) map to 19/20 as well; the exact string LTM maps to (9999, 1); and
every string of any other shape maps to (0, 0). -/
def specPeriodValue (s : String) : PKey :=
  match s.data with
  | [a0, a1, a, b] =>
      if a0 == '2' && a1 == '0' && a.isDigit && b.isDigit then
        (yearNum a b, 1)
      else (0, 0)
  | [a0, a1, a, b, t, q] =>
      if a0 == '2' && a1 == '0' && a.isDigit && b.isDigit then
        if t == 'Q' then
          if q == '1' then (yearNum a b, mkRat 1 4)
          else if q == '2' then (yearNum a b, mkRat 1 2)
          else if q == '3' then (yearNum a b, mkRat 3 4)
          else if q == '4' then (yearNum a b, mkRat 9 10)
          else (0, 0)
        else if t == 'H' then
          if q == '1' then (yearNum a b, mkRat 11 20)
          else if q == '2' || q == '3' || q == '4' then (yearNum a b, mkRat 19 20)
          else (0, 0)
        else (0, 0)
      else (0, 0)
  | _ => if s = "LTM" then (9999, 1) else (0, 0)

/-- Lexicographic order on period sort keys, as Python compares the pairs
returned by `get_period_value`. -/
def keyLE (k1 k2 : PKey) : Prop := k1.1 < k2.1 ∨ (k1.1 = k2.1 ∧ k1.2 ≤ k2.2)

/-- Strict lexicographic order on period sort keys. -/
def keyLT (k1 k2 : PKey) : Prop := k1.1 < k2.1 ∨ (k1.1 = k2.1 ∧ k1.2 < k2.2)

instance : DecidableRel keyLE := fun k1 k2 => by unfold keyLE; exact inferInstance

instance : DecidableRel keyLT := fun k1 k2 => by unfold keyLT; exact inferInstance

lemma mk_ne_LTM (l : List Char) (h : l.length ≠ 3) : (⟨l⟩ : String) ≠ "LTM" := by
  intro he
  apply h
  have hd : l = "LTM".data := congrArg String.data he
  rw [hd]
  rfl

lemma gpv_eq_spec (l : List Char) :
    get_period_value ⟨l⟩ = specPeriodValue ⟨l⟩ := by
  rcases l with _ | ⟨c1, _ | ⟨c2, _ | ⟨c3, _ | ⟨c4, _ | ⟨c5, _ | ⟨c6, _ | ⟨c7, r⟩⟩⟩⟩⟩⟩⟩
  · rfl
  · rfl
  · rfl
  · rfl
  · -- length 4: year shape or unrecognized
    simp only [get_period_value, is_year_column, isYearChars, qhKey, specPeriodValue]
    by_cases h1 : c1 = '2' <;> by_cases h2 : c2 = '0' <;>
      by_cases h3 : c3.isDigit <;> by_cases h4 : c4.isDigit <;>
      simp [h1, h2, h3, h4, mk_ne_LTM]
  · rfl
  · -- length 6: quarter / half-year shape or unrecognized
    simp only [get_period_value, is_year_column, isYearChars, qhKey, specPeriodValue]
    by_cases h1 : c1 = '2' <;> by_cases h2 : c2 = '0' <;>
      by_cases h3 : c3.isDigit <;> by_cases h4 : c4.isDigit <;>
      by_cases h5 : c5 = 'Q' <;> by_cases h5h : c5 = 'H' <;>
      by_cases hq1 : c6 = '1' <;> by_cases hq2 : c6 = '2' <;>
      by_cases hq3 : c6 = '3' <;> by_cases hq4 : c6 = '4' <;>
      simp_all [mk_ne_LTM, digitVal] <;> decide
  · rfl

lemma spec_rank_nonneg (s : String) : 0 ≤ (specPeriodValue s).2 := by
  unfold specPeriodValue
  split <;> split_ifs <;> dsimp only <;> decide

/-- C2 (counterexample): the label `2022H3` has none of the four shapes the
claim lists, yet `get_period_value` does not map it to `(0, 0)`; the code's
combined regex `[QH][1-4]` accepts `H3` and yields `(2022, 0.95)`. -/
theorem c2_counterexample : get_period_value "2022H3" ≠ (0, 0) := by decide

/-- C2 (amended): `get_period_value` is total and maps labels by shape as
the claim states for year, quarter, H1, H2 and LTM labels, except that its
half-year arm actually accepts `^20\d{2}H[1-4]$`, ranking H3 and H4 like H2
at 0.95; every string of any other shape maps to `(0, 0)`, which is below
or equal to every produced key, so malformed labels sort to the front. -/
theorem c2_period_value_shape (s : String) :
    get_period_value s = specPeriodValue s ∧
      keyLE (0, 0) (get_period_value s) := by
  obtain ⟨l⟩ := s
  refine ⟨gpv_eq_spec l, ?_⟩
  rw [gpv_eq_spec l]
  have h := spec_rank_nonneg ⟨l⟩
  unfold keyLE
  rcases Nat.eq_zero_or_pos (specPeriodValue ⟨l⟩).1 with h0 | h0
  · exact Or.inr ⟨h0.symm, h⟩
  · exact Or.inl h0

/-- Order on column labels induced by their period sort keys; this is the
comparison Python's `sorted(all_columns, key=...)` uses. -/
def colLE (c d : String) : Prop := keyLE (get_period_value c) (get_period_value d)

/-- Strict order on column labels induced by their period sort keys. -/
def colLT (c d : String) : Prop := keyLT (get_period_value c) (get_period_value d)

instance : DecidableRel colLE := fun c d => by unfold colLE; exact inferInstance

instance : DecidableRel colLT := fun c d => by unfold colLT; exact inferInstance

lemma keyLE_total (k1 k2 : PKey) : keyLE k1 k2 ∨ keyLE k2 k1 := by
  unfold keyLE
  rcases Nat.lt_trichotomy k1.1 k2.1 with h | h | h
  · exact Or.inl (Or.inl h)
  · rcases le_total k1.2 k2.2 with h2 | h2
    · exact Or.inl (Or.inr ⟨h, h2⟩)
    · exact Or.inr (Or.inr ⟨h.symm, h2⟩)
  · exact Or.inr (Or.inl h)

lemma keyLE_trans {k1 k2 k3 : PKey} (h12 : keyLE k1 k2) (h23 : keyLE k2 k3) :
    keyLE k1 k3 := by
  unfold keyLE at *
  rcases h12 with h12 | ⟨e12, r12⟩
  · rcases h23 with h23 | ⟨e23, _⟩
    · exact Or.inl (h12.trans h23)
    · exact Or.inl (e23 ▸ h12)
  · rcases h23 with h23 | ⟨e23, r23⟩
    · exact Or.inl (e12 ▸ h23)
    · exact Or.inr ⟨e12.trans e23, r12.trans r23⟩

instance : IsTotal String colLE := ⟨fun c d => keyLE_total _ _⟩

instance : IsTrans String colLE := ⟨fun _ _ _ h1 h2 => keyLE_trans h1 h2⟩

/-- First-occurrence-preserving deduplication, as Python's
`OrderedDict.fromkeys` performs it; `seen` accumulates the keys already
emitted. -/
def dedupFirstAux {α : Type} [DecidableEq α] : List α → List α → List α
  | _, [] => []
  | seen, a :: l =>
      if a ∈ seen then dedupFirstAux seen l
      else a :: dedupFirstAux (a :: seen) l

/-- Source `list(OrderedDict.fromkeys(...))`: remove duplicates keeping the
first occurrence of each element. -/
def dedupFirst {α : Type} [DecidableEq α] (l : List α) : List α :=
  dedupFirstAux [] l

lemma mem_dedupFirstAux {α : Type} [DecidableEq α] (x : α) :
    ∀ (l seen : List α), x ∈ dedupFirstAux seen l ↔ x ∈ l ∧ x ∉ seen := by
  intro l
  induction l with
  | nil => intro seen; simp [dedupFirstAux]
  | cons a t ih =>
      intro seen
      by_cases ha : a ∈ seen
      · simp only [dedupFirstAux, ha, ite_true, List.mem_cons, ih]
        constructor
        · rintro ⟨hx, hs⟩
          exact ⟨Or.inr hx, hs⟩
        · rintro ⟨rfl | hx, hs⟩
          · exact absurd ha hs
          · exact ⟨hx, hs⟩
      · simp only [dedupFirstAux, ha, ite_false, List.mem_cons, ih]
        constructor
        · rintro (rfl | ⟨hx, hs⟩)
          · exact ⟨Or.inl rfl, ha⟩
          · exact ⟨Or.inr hx, fun hc => hs (Or.inr hc)⟩
        · rintro ⟨rfl | hx, hs⟩
          · exact Or.inl rfl
          · by_cases hxa : x = a
            · exact Or.inl hxa
            · refine Or.inr ⟨hx, ?_⟩
              rintro (h | h)
              · exact hxa h
              · exact hs h

lemma mem_dedupFirst {α : Type} [DecidableEq α] (x : α) (l : List α) :
    x ∈ dedupFirst l ↔ x ∈ l := by
  unfold dedupFirst
  rw [mem_dedupFirstAux]
  simp

lemma nodup_dedupFirstAux {α : Type} [DecidableEq α] :
    ∀ (l seen : List α), (dedupFirstAux seen l).Nodup := by
  intro l
  induction l with
  | nil => intro seen; simp [dedupFirstAux]
  | cons a t ih =>
      intro seen
      by_cases ha : a ∈ seen
      · simpa [dedupFirstAux, if_pos ha] using ih seen
      · rw [dedupFirstAux, if_neg ha]
        refine List.nodup_cons.mpr ⟨fun hc => ?_, ih (a :: seen)⟩
        exact ((mem_dedupFirstAux a t (a :: seen)).mp hc).2 (List.mem_cons_self a seen)

lemma nodup_dedupFirst {α : Type} [DecidableEq α] (l : List α) :
    (dedupFirst l).Nodup := nodup_dedupFirstAux l []

lemma sublist_dedupFirstAux {α : Type} [DecidableEq α] :
    ∀ (l seen : List α), (dedupFirstAux seen l).Sublist l := by
  intro l
  induction l with
  | nil => intro seen; simp [dedupFirstAux]
  | cons a t ih =>
      intro seen
      by_cases ha : a ∈ seen
      · rw [dedupFirstAux, if_pos ha]
        exact (ih seen).cons a
      · rw [dedupFirstAux, if_neg ha]
        exact (ih (a :: seen)).cons₂ a

lemma sorted_dedupFirst {α : Type} [DecidableEq α] {r : α → α → Prop}
    {l : List α} (h : l.Sorted r) : (dedupFirst l).Sorted r :=
  List.Pairwise.sublist (sublist_dedupFirstAux l []) h

lemma toFinset_dedupFirst {α : Type} [DecidableEq α] (l : List α) :
    (dedupFirst l).toFinset = l.toFinset := by
  apply List.toFinset.ext
  intro x
  simp [mem_dedupFirst]

lemma dedupFirstAux_congr {α : Type} [DecidableEq α] :
    ∀ (l s1 s2 : List α), (∀ x, x ∈ s1 ↔ x ∈ s2) →
      dedupFirstAux s1 l = dedupFirstAux s2 l := by
  intro l
  induction l with
  | nil => intro s1 s2 _; rfl
  | cons a t ih =>
      intro s1 s2 h
      by_cases ha : a ∈ s1
      · rw [dedupFirstAux, if_pos ha, dedupFirstAux, if_pos ((h a).mp ha)]
        exact ih s1 s2 h
      · rw [dedupFirstAux, if_neg ha, dedupFirstAux,
          if_neg (fun hc => ha ((h a).mpr hc))]
        refine congrArg (a :: ·) (ih _ _ fun x => ?_)
        simp only [List.mem_cons]
        exact or_congr Iff.rfl (h x)

lemma dedupFirstAux_eq_filter {α : Type} [DecidableEq α] :
    ∀ (l seen : List α), l.Nodup →
      dedupFirstAux seen l = l.filter (fun x => decide (x ∉ seen)) := by
  intro l
  induction l with
  | nil => intro seen _; rfl
  | cons a t ih =>
      intro seen hnd
      rw [List.nodup_cons] at hnd
      by_cases ha : a ∈ seen
      · rw [dedupFirstAux, if_pos ha, List.filter_cons]
        simp only [ha, not_true_eq_false, decide_False, Bool.false_eq_true,
          if_false]
        exact ih seen hnd.2
      · rw [dedupFirstAux, if_neg ha, List.filter_cons]
        simp only [ha, not_false_eq_true, decide_True, if_true]
        refine congrArg (a :: ·) ?_
        rw [ih (a :: seen) hnd.2]
        apply List.filter_congr
        intro x hx
        have hxa : ¬x = a := fun he => hnd.1 (he ▸ hx)
        simp [List.mem_cons, hxa]

lemma dedupFirstAux_append {α : Type} [DecidableEq α] (l2 : List α) :
    ∀ (l1 seen : List α), l1.Nodup → (∀ x ∈ l1, x ∉ seen) →
      dedupFirstAux seen (l1 ++ l2) =
        l1 ++ dedupFirstAux (l1.reverse ++ seen) l2 := by
  intro l1
  induction l1 with
  | nil => intro seen _ _; simp
  | cons a t ih =>
      intro seen hnd hdis
      rw [List.nodup_cons] at hnd
      have ha : a ∉ seen := hdis a (List.mem_cons_self a t)
      rw [List.cons_append, dedupFirstAux, if_neg ha]
      rw [ih (a :: seen) hnd.2
        (fun x hx => by
          simp only [List.mem_cons]
          rintro (rfl | hc)
          · exact hnd.1 hx
          · exact hdis x (List.mem_cons_of_mem _ hx) hc)]
      rw [List.cons_append]
      refine congrArg (a :: ·) (congrArg (t ++ ·) ?_)
      apply dedupFirstAux_congr
      intro x
      simp only [List.reverse_cons, List.mem_append, List.mem_cons,
        List.mem_reverse, List.mem_singleton]
      tauto

lemma dedupFirst_append {α : Type} [DecidableEq α] (l1 l2 : List α)
    (h1 : l1.Nodup) (h2 : l2.Nodup) :
    dedupFirst (l1 ++ l2) = l1 ++ l2.filter (fun x => decide (x ∉ l1)) := by
  unfold dedupFirst
  rw [dedupFirstAux_append l2 l1 [] h1 (by simp)]
  refine congrArg (l1 ++ ·) ?_
  rw [dedupFirstAux_congr l2 (l1.reverse ++ []) l1.reverse (by simp)]
  rw [dedupFirstAux_eq_filter l2 l1.reverse h2]
  apply List.filter_congr
  intro x _
  simp

/-- Quarter subperiod characters collected per year by source
`detect_and_convert_half_years`: for each quarter column whose extracted
year equals `y`, the column's last character (Python `col[-1]`), in column
order. -/
def quarterDigits (cols : List String) (y : String) : List Char :=
  cols.filterMap fun c =>
    if is_quarter_column c && (get_year_from_period c == some y) then
      c.data.getLast?
    else none

/-- Condition under which source `detect_and_convert_half_years` renames a
year's columns: `sorted(quarters) == ['2', '4'] and len(quarters) == 2`. -/
def halfYearPair (cols : List String) (y : String) : Bool :=
  (List.insertionSort (· ≤ ·) (quarterDigits cols y) == ['2', '4']) &&
    (quarterDigits cols y).length == 2

/-- Source `detect_and_convert_half_years`, as the lookup function of the
mapping it returns.  The dict's keys are exactly the strings `yQ2` and
`yQ4` for each grouped year `y` whose quarter set qualifies; a year with no
quarter columns has an empty digit list and never qualifies, so matching on
the six-character shapes below is equivalent to key membership. -/
def detect_and_convert_half_years (cols : List String) (c : String) :
    Option String :=
  match c.data with
  | [a0, a1, a, b, 'Q', '2'] =>
      if halfYearPair cols (String.mk [a0, a1, a, b]) then
        some (String.mk [a0, a1, a, b, 'H', '1'])
      else none
  | [a0, a1, a, b, 'Q', '4'] =>
      if halfYearPair cols (String.mk [a0, a1, a, b]) then
        some (String.mk [a0, a1, a, b, 'H', '2'])
      else none
  | _ => none

/-- Renaming applied by `quarterly_df.rename(columns=col_mapping)`: a
column label is replaced when it is a key of the mapping and kept
otherwise. -/
def renameMap (cols : List String) (c : String) : String :=
  (detect_and_convert_half_years cols c).getD c

/-- Specification-side renaming, written from claim C5: a column `yQ2`
becomes `yH1` and `yQ4` becomes `yH2` exactly when the set of quarter
subperiod digits present for year `y` equals the two-element set of the
digits 2 and 4; every other column is kept unchanged. -/
def specRename (cols : List String) (c : String) : String :=
  match c.data with
  | [a0, a1, a, b, 'Q', '2'] =>
      if (quarterDigits cols (String.mk [a0, a1, a, b])).toFinset =
          ({'2', '4'} : Finset Char) then
        String.mk [a0, a1, a, b, 'H', '1']
      else c
  | [a0, a1, a, b, 'Q', '4'] =>
      if (quarterDigits cols (String.mk [a0, a1, a, b])).toFinset =
          ({'2', '4'} : Finset Char) then
        String.mk [a0, a1, a, b, 'H', '2']
      else c
  | _ => c

/-- Cell values: a text value carries its characters; any non-text value
(a parsed number, pandas NaN) is opaque to the normalizer and carried by a
tag. -/
inductive CellVal : Type where
  | str : List Char → CellVal
  | nonStr : ℕ → CellVal
deriving DecidableEq

/-- Character-level body of source `clean_value`: remove all spaces, then
replace commas by dots when the regex `\d+,\d+` matches somewhere, i.e.
exactly when a digit-comma-digit substring is present. -/
def containsDCD : List Char → Bool
  | a :: b :: c :: rest =>
      (a.isDigit && b == ',' && c.isDigit) || containsDCD (b :: c :: rest)
  | _ => false

/-- Comma-to-dot replacement used by source `clean_value`. -/
def commaToDot (c : Char) : Char := if c = ',' then '.' else c

/-- Source `clean_value` on the characters of a text value. -/
def cleanChars (l : List Char) : List Char :=
  let t := l.filter fun c => c ≠ ' '
  if containsDCD t then t.map commaToDot else t

/-- Source `clean_value`: non-text values are returned unchanged. -/
def clean_value : CellVal → CellVal
  | .str l => .str (cleanChars l)
  | .nonStr n => .nonStr n

/-- Source `convert_date_format` on the characters of a text value: the
regex `(\d{2})\.(\d{2})\.(\d{4})` is matched at the start of the string
with no end anchor, so only the first ten characters are inspected; on a
match the groups are transposed into `yyyy-mm-dd` and everything after the
matched prefix is discarded.  The surrounding try/except cannot fire
because the f-string never raises. -/
def convertDateChars (l : List Char) : List Char :=
  match l with
  | d1 :: d2 :: p1 :: m1 :: m2 :: p2 :: y1 :: y2 :: y3 :: y4 :: _ =>
      if d1.isDigit && d2.isDigit && p1 == '.' && m1.isDigit && m2.isDigit &&
          p2 == '.' && y1.isDigit && y2.isDigit && y3.isDigit && y4.isDigit then
        [y1, y2, y3, y4, '-', m1, m2, '-', d1, d2]
      else l
  | _ => l

/-- Source `convert_date_format`: non-text values pass through unchanged. -/
def convert_date_format : CellVal → CellVal
  | .str l => .str (convertDateChars l)
  | .nonStr n => .nonStr n

/-- Fixed metric rename table of source `rename_metrics`. -/
def metricRenameTable : List (String × String) :=
  [("Операционный денежный поток, млрд руб", "OCF, млрд руб"),
   ("Дивиденды/прибыль, %", "DPR, %"),
   ("Чистые активы, млрд руб", "Капитал, млрд руб"),
   ("Активы банка, млрд руб", "Активы, млрд руб"),
   ("Дивиденд, руб/акцию", "DPS, руб"),
   ("Дивиденд ап, руб/акцию", "P_DPS, руб"),
   ("Див доход, ао, %", "DY, %"),
   ("Див доход, ап, %", "P_DY, %"),
   ("Доходность FCF, %", "FCF/P, %"),
   ("Долг/EBITDA", "ND/EBITDA"),
   ("P/BV", "P/B")]

/-- Lookup in the metric rename table (`rename_map.get(idx, idx)`). -/
def renameMetric (r : String) : String :=
  ((metricRenameTable.find? fun p => p.1 == r).map Prod.snd).getD r

/-- Tabular document: ordered row labels (the index), ordered column
labels, and a label-keyed cell lookup where `none` is a missing value. -/
structure Table : Type where
  rows : List String
  cols : List String
  cell : String → String → Option CellVal

/-- Well-formed table: cells exist only at its own row and column labels. -/
def Table.WF (t : Table) : Prop :=
  ∀ r c, (r ∉ t.rows ∨ c ∉ t.cols) → t.cell r c = none

/-- Renaming step `quarterly_df.rename(columns=col_mapping)`: labels are
rewritten, cell values are carried to the renamed label.  Lookup inverts
the renaming by scanning the original columns for the first label that
renames to the requested one (for an injective renaming this is the unique
preimage, matching pandas' label alignment). -/
def applyRename (q : Table) : Table where
  rows := q.rows
  cols := q.cols.map (renameMap q.cols)
  cell := fun r c =>
    match q.cols.find? fun c0 => renameMap q.cols c0 == c with
    | some c0 => q.cell r c0
    | none => none

/-- Merged metric order of source `join_csv_files` lines 211-224: all
annual row labels in order, then unseen quarterly row labels in order,
realized with `OrderedDict` insertion. -/
def merged_metrics (annual quarterly : Table) : List String :=
  dedupFirst (annual.rows ++ quarterly.rows)

/-- Merged column order of source `join_csv_files` lines 226-236:
concatenate both column lists, stable-sort by period sort key, then drop
duplicate labels keeping first occurrences. -/
def ordered_columns (annualCols qCols : List String) : List String :=
  dedupFirst (List.insertionSort colLE (annualCols ++ qCols))

/-- Cell population step of source `join_csv_files` lines 238-245: each
ordered column is filled from the annual table when the label is an annual
column and from the (renamed) quarterly table otherwise. -/
def populate (annual qR : Table) : Table where
  rows := merged_metrics annual qR
  cols := ordered_columns annual.cols qR.cols
  cell := fun r c =>
    if c ∈ annual.cols then annual.cell r c
    else if c ∈ qR.cols then qR.cell r c
    else none

/-- Post-processing of source `join_csv_files` lines 247-257: clean every
cell, convert the report-date row, then rename metrics.  Metric renaming
rewrites the index positionally; lookup scans for the first original row
label renaming to the requested one. -/
def postprocess (t : Table) : Table where
  rows := t.rows.map renameMetric
  cols := t.cols
  cell := fun r c =>
    match t.rows.find? fun r0 => renameMetric r0 == r with
    | some r0 =>
        let v := (t.cell r0 c).map clean_value
        if r0 = "Дата отчета" then v.map convert_date_format else v
    | none => none

/-- Source `join_csv_files` on two parsed tables: half-year inference and
renaming on the quarterly table, row and column merging, cell population,
then value normalization. -/
def join_csv_files (annual quarterly : Table) : Table :=
  postprocess (populate annual (applyRename quarterly))

/-- Blank separator row labels of source `combine_standards`. -/
def separatorRows : List String :=
  (List.range 10).map fun i => "empty_" ++ toString i

/-- Assembly step of source `combine_standards` lines 281-302 on the two
already-merged tables: recompute one chronological column order over the
union of both column sets, re-align each table to it, and stack the first
table, ten blank rows, and the second table.  Rows are kept as an ordered
list of label/cells pairs because the stacked document may repeat row
labels across blocks. -/
def combine_standards (msfo rsbu : Table) :
    List String × List (String × (String → Option CellVal)) :=
  let ocols := ordered_columns msfo.cols rsbu.cols
  (ocols,
    (msfo.rows.map fun rw =>
      (rw, fun c => if c ∈ msfo.cols then msfo.cell rw c else none)) ++
    (separatorRows.map fun rw => (rw, fun _ => (none : Option CellVal))) ++
    (rsbu.rows.map fun rw =>
      (rw, fun c => if c ∈ rsbu.cols then rsbu.cell rw c else none)))

lemma mem_ordered_columns (x : String) (a q : List String) :
    x ∈ ordered_columns a q ↔ x ∈ a ∨ x ∈ q := by
  unfold ordered_columns
  rw [mem_dedupFirst, (List.perm_insertionSort colLE (a ++ q)).mem_iff]
  exact List.mem_append

lemma nodup_ordered_columns (a q : List String) :
    (ordered_columns a q).Nodup := nodup_dedupFirst _

lemma sorted_ordered_columns (a q : List String) :
    (ordered_columns a q).Sorted colLE :=
  sorted_dedupFirst (List.sorted_insertionSort colLE (a ++ q))

lemma toFinset_ordered_columns (a q : List String) :
    (ordered_columns a q).toFinset = (a ++ q).toFinset := by
  unfold ordered_columns
  rw [toFinset_dedupFirst]
  exact List.toFinset_eq_of_perm _ _ (List.perm_insertionSort colLE (a ++ q))

lemma join_csv_files_cols (A Q : Table) :
    (join_csv_files A Q).cols = ordered_columns A.cols (applyRename Q).cols :=
  rfl

/-- Annual table of the two-column scenario: the single column 2022. -/
def tblAnnualB : Table where
  rows := ["m"]
  cols := ["2022"]
  cell := fun _ _ => none

/-- Quarterly table of the two-column scenario: the single column 2022Q4. -/
def tblQuarterlyB : Table where
  rows := ["m"]
  cols := ["2022Q4"]
  cell := fun _ _ => none

/-- C1 (counterexample): with annual columns 2022 and quarterly columns
2022Q4 only, the merged column sequence of `join_csv_files` is not the
claimed singleton 2022 - the lone Q4 column is not dropped. -/
theorem c1_counterexample :
    (join_csv_files tblAnnualB tblQuarterlyB).cols ≠ ["2022"] := by decide

/-- C1 (amended): `join_csv_files` never drops a quarterly column.  Every
post-relabel quarterly column (a lone `YQ4` included) and every annual
column appears in the merged column sequence; in the scenario with annual
columns 2022 and quarterly columns 2022Q4 only, the merged sequence is
2022Q4 followed by 2022, the Q4 column sorting immediately before the
annual year column rather than being dropped. -/
theorem c1_lone_q4_retained (A Q : Table) (c : String)
    (hc : c ∈ (applyRename Q).cols) :
    c ∈ (join_csv_files A Q).cols ∧
    (∀ c2 ∈ A.cols, c2 ∈ (join_csv_files A Q).cols) ∧
    (join_csv_files tblAnnualB tblQuarterlyB).cols = ["2022Q4", "2022"] := by
  refine ⟨?_, fun c2 h2 => ?_, by decide⟩
  · rw [join_csv_files_cols, mem_ordered_columns]
    exact Or.inr hc
  · rw [join_csv_files_cols, mem_ordered_columns]
    exact Or.inl h2

/-- C1 (witness): the retained lone Q4 column of the concrete scenario. -/
theorem c1_witness :
    "2022Q4" ∈ (join_csv_files tblAnnualB tblQuarterlyB).cols :=
  (c1_lone_q4_retained tblAnnualB tblQuarterlyB "2022Q4" (by decide)).1

/-- Year label `20xy`. -/
def mkYearLabel (x y : Char) : String := ⟨['2', '0', x, y]⟩

/-- Quarter label `20xyQq`. -/
def mkQLabel (x y q : Char) : String := ⟨['2', '0', x, y, 'Q', q]⟩

/-- Half-year label `20xyHh`. -/
def mkHLabel (x y h : Char) : String := ⟨['2', '0', x, y, 'H', h]⟩

lemma gpv_mkYear (x y : Char) (hx : x.isDigit = true) (hy : y.isDigit = true) :
    get_period_value (mkYearLabel x y) = (yearNum x y, 1) := by
  unfold mkYearLabel
  rw [gpv_eq_spec]
  simp [specPeriodValue, hx, hy]

lemma gpv_mkQ (x y q : Char) (hx : x.isDigit = true) (hy : y.isDigit = true) :
    get_period_value (mkQLabel x y q) =
      if q == '1' then (yearNum x y, mkRat 1 4)
      else if q == '2' then (yearNum x y, mkRat 1 2)
      else if q == '3' then (yearNum x y, mkRat 3 4)
      else if q == '4' then (yearNum x y, mkRat 9 10)
      else (0, 0) := by
  unfold mkQLabel
  rw [gpv_eq_spec]
  simp [specPeriodValue, hx, hy]

lemma gpv_mkH (x y h : Char) (hx : x.isDigit = true) (hy : y.isDigit = true) :
    get_period_value (mkHLabel x y h) =
      if h == '1' then (yearNum x y, mkRat 11 20)
      else if h == '2' || h == '3' || h == '4' then (yearNum x y, mkRat 19 20)
      else (0, 0) := by
  unfold mkHLabel
  rw [gpv_eq_spec]
  simp [specPeriodValue, hx, hy]

/-- Annual table of merge scenario A. -/
def tblAnnualA : Table where
  rows := ["m"]
  cols := ["2021", "2022", "LTM"]
  cell := fun _ _ => none

/-- Quarterly table of merge scenario A: all four quarters of 2022. -/
def tblQuarterlyA : Table where
  rows := ["m"]
  cols := ["2022Q1", "2022Q2", "2022Q3", "2022Q4"]
  cell := fun _ _ => none

/-- C3: the merged column sequence of `join_csv_files` is a duplicate-free
list whose element set is the union of the annual and post-relabel
quarterly column sets, arranged in non-decreasing period-sort-key order;
within any one year the fixed intra-year order
Q1 < Q2 < H1 < Q3 < Q4 < H2 < Year holds; and scenario A produces exactly
the claimed sequence. -/
theorem c3_merged_column_order (A Q : Table) (x y : Char)
    (hx : x.isDigit = true) (hy : y.isDigit = true) :
    (join_csv_files A Q).cols.Nodup ∧
    (join_csv_files A Q).cols.toFinset =
      (A.cols ++ (applyRename Q).cols).toFinset ∧
    (join_csv_files A Q).cols.Sorted colLE ∧
    (colLT (mkQLabel x y '1') (mkQLabel x y '2') ∧
      colLT (mkQLabel x y '2') (mkHLabel x y '1') ∧
      colLT (mkHLabel x y '1') (mkQLabel x y '3') ∧
      colLT (mkQLabel x y '3') (mkQLabel x y '4') ∧
      colLT (mkQLabel x y '4') (mkHLabel x y '2') ∧
      colLT (mkHLabel x y '2') (mkYearLabel x y)) ∧
    (join_csv_files tblAnnualA tblQuarterlyA).cols =
      ["2021", "2022Q1", "2022Q2", "2022Q3", "2022Q4", "2022", "LTM"] := by
  refine ⟨nodup_ordered_columns _ _, toFinset_ordered_columns _ _,
    sorted_ordered_columns _ _, ?_, by decide⟩
  refine ⟨?_, ?_, ?_, ?_, ?_, ?_⟩ <;> unfold colLT
  · rw [gpv_mkQ x y '1' hx hy, gpv_mkQ x y '2' hx hy]
    exact Or.inr ⟨rfl, show mkRat 1 4 < mkRat 1 2 by decide⟩
  · rw [gpv_mkQ x y '2' hx hy, gpv_mkH x y '1' hx hy]
    exact Or.inr ⟨rfl, show mkRat 1 2 < mkRat 11 20 by decide⟩
  · rw [gpv_mkH x y '1' hx hy, gpv_mkQ x y '3' hx hy]
    exact Or.inr ⟨rfl, show mkRat 11 20 < mkRat 3 4 by decide⟩
  · rw [gpv_mkQ x y '3' hx hy, gpv_mkQ x y '4' hx hy]
    exact Or.inr ⟨rfl, show mkRat 3 4 < mkRat 9 10 by decide⟩
  · rw [gpv_mkQ x y '4' hx hy, gpv_mkH x y '2' hx hy]
    exact Or.inr ⟨rfl, show mkRat 9 10 < mkRat 19 20 by decide⟩
  · rw [gpv_mkH x y '2' hx hy, gpv_mkYear x y hx hy]
    exact Or.inr ⟨rfl, show mkRat 19 20 < 1 by decide⟩

/-- C3 (witness): the intra-year chain at the concrete year 2022 together
with the scenario A column sequence. -/
theorem c3_witness :
    colLT (mkQLabel '2' '2' '4') (mkHLabel '2' '2' '2') ∧
    (join_csv_files tblAnnualA tblQuarterlyA).cols =
      ["2021", "2022Q1", "2022Q2", "2022Q3", "2022Q4", "2022", "LTM"] :=
  ⟨(c3_merged_column_order tblAnnualA tblQuarterlyA '2' '2' (by decide)
      (by decide)).2.2.2.1.2.2.2.2.1,
   (c3_merged_column_order tblAnnualA tblQuarterlyA '2' '2' (by decide)
      (by decide)).2.2.2.2⟩

/-- First-standard table of dual-standard scenario F. -/
def tblMsfoF : Table where
  rows := ["m1"]
  cols := ["2022"]
  cell := fun _ _ => none

/-- Second-standard table of dual-standard scenario F. -/
def tblRsbuF : Table where
  rows := ["m2"]
  cols := ["2022Q4"]
  cell := fun _ _ => none

lemma map_fst_pair {α β : Type} (l : List α) (f : α → β) :
    (l.map fun a => (a, f a)).map Prod.fst = l := by
  induction l with
  | nil => rfl
  | cons a t ih => simp [ih]

/-- C4: the dual-standard combiner recomputes the combined column order as
the chronologically sorted, deduplicated union of both merged tables'
columns (not their concatenation), and stacks the first table, exactly ten
blank separator rows with every cell missing, and the second table; in
scenario F the period 2022Q4, present only under the second standard, is
placed at its chronological position before 2022. -/
theorem c4_combined_document (m r : Table) :
    (combine_standards m r).1.Sorted colLE ∧
    (combine_standards m r).1.Nodup ∧
    (combine_standards m r).1.toFinset = (m.cols ++ r.cols).toFinset ∧
    (∃ pre mid post,
      (combine_standards m r).2 = pre ++ mid ++ post ∧
      pre.map Prod.fst = m.rows ∧
      mid.length = 10 ∧
      post.map Prod.fst = r.rows ∧
      ∀ p ∈ mid, ∀ c, p.2 c = none) ∧
    (combine_standards tblMsfoF tblRsbuF).1 = ["2022Q4", "2022"] ∧
    (combine_standards tblMsfoF tblRsbuF).1 ≠ tblMsfoF.cols ++ tblRsbuF.cols := by
  refine ⟨sorted_ordered_columns _ _, nodup_ordered_columns _ _,
    toFinset_ordered_columns _ _, ?_, by decide, by decide⟩
  refine ⟨_, _, _, rfl, ?_, ?_, ?_, ?_⟩
  · exact map_fst_pair m.rows _
  · simp [separatorRows]
  · exact map_fst_pair r.rows _
  · intro p hp c
    rcases List.mem_map.mp hp with ⟨rw0, _, rfl⟩
    rfl

lemma isQuarterChars_shape {l : List Char} (h : isQuarterChars l = true) :
    ∃ a b q, l = ['2', '0', a, b, 'Q', q] ∧ a.isDigit = true ∧
      b.isDigit = true ∧ (q = '1' ∨ q = '2' ∨ q = '3' ∨ q = '4') := by
  rcases l with _ | ⟨x0, _ | ⟨x1, _ | ⟨x2, _ | ⟨x3, _ | ⟨x4, _ | ⟨x5, _ | ⟨x6, r⟩⟩⟩⟩⟩⟩⟩ <;>
    simp [isQuarterChars] at h
  obtain ⟨⟨⟨⟨h0, h1⟩, h2⟩, h3⟩, h4⟩ := h.1
  have h5 := h.2
  exact ⟨x2, x3, x5, by simp [h0, h1, h4], h2, h3, by tauto⟩

lemma quarter_digit_determined {c y : String} {d : Char}
    (h : (if is_quarter_column c && (get_year_from_period c == some y) then
        c.data.getLast? else none) = some d) :
    ∃ a b, y = ⟨['2', '0', a, b]⟩ ∧ c = ⟨['2', '0', a, b, 'Q', d]⟩ := by
  split at h
  case isFalse => exact absurd h (by simp)
  case isTrue hcond =>
    obtain ⟨hq, hy⟩ := (Bool.and_eq_true _ _) ▸ hcond
    rw [beq_iff_eq] at hy
    obtain ⟨a, b, q, hdata, ha, hb, hcls⟩ :=
      isQuarterChars_shape (l := c.data) hq
    have hyv : y = ⟨['2', '0', a, b]⟩ := by
      unfold get_year_from_period at hy
      rw [hdata] at hy
      rcases hcls with rfl | rfl | rfl | rfl <;>
        simp [ha, hb] at hy <;> exact hy.symm
    have hdq : d = q := by
      rw [hdata] at h
      simp [List.getLast?] at h
      exact h.symm
    refine ⟨a, b, hyv, ?_⟩
    obtain ⟨lc⟩ := c
    exact congrArg String.mk (by simpa [hdq] using hdata)

lemma nodup_quarterDigits (cols : List String) (y : String)
    (h : cols.Nodup) : (quarterDigits cols y).Nodup := by
  unfold quarterDigits
  refine List.Nodup.filterMap ?_ h
  intro c1 c2 d hd1 hd2
  obtain ⟨a1, b1, hy1, hc1⟩ := quarter_digit_determined (Option.mem_def.mp hd1)
  obtain ⟨a2, b2, hy2, hc2⟩ := quarter_digit_determined (Option.mem_def.mp hd2)
  have hy : (['2', '0', a1, b1] : List Char) = ['2', '0', a2, b2] :=
    congrArg String.data (hy1.symm.trans hy2)
  simp only [List.cons.injEq, true_and, and_true] at hy
  rw [hc1, hc2, hy.1, hy.2]

lemma insertionSort_pair_iff (ds : List Char) :
    List.insertionSort (· ≤ ·) ds = ['2', '4'] ↔ ds.Perm ['2', '4'] := by
  constructor
  · intro h
    have hp := List.perm_insertionSort (· ≤ ·) ds
    rw [h] at hp
    exact hp.symm
  · intro h
    exact List.eq_of_perm_of_sorted ((List.perm_insertionSort _ ds).trans h)
      (List.sorted_insertionSort _ ds) (by decide)

lemma halfYearPair_iff_toFinset (cols : List String) (y : String)
    (hnd : (quarterDigits cols y).Nodup) :
    halfYearPair cols y = true ↔
      (quarterDigits cols y).toFinset = ({'2', '4'} : Finset Char) := by
  unfold halfYearPair
  rw [Bool.and_eq_true, beq_iff_eq, beq_iff_eq, insertionSort_pair_iff]
  constructor
  · rintro ⟨hperm, _⟩
    rw [List.toFinset_eq_of_perm _ _ hperm]
    decide
  · intro hfin
    have hperm : (quarterDigits cols y).Perm ['2', '4'] :=
      List.perm_of_nodup_nodup_toFinset_eq hnd (by decide)
        (hfin.trans (by decide))
    exact ⟨hperm, hperm.length_eq⟩

lemma renameMap_eq_specRename (cols : List String) (hnd : cols.Nodup)
    (c : String) : renameMap cols c = specRename cols c := by
  unfold renameMap detect_and_convert_half_years specRename
  split
  case h_1 a0 a1 a b heq =>
    rw [if_congr (halfYearPair_iff_toFinset cols ⟨[a0, a1, a, b]⟩
      (nodup_quarterDigits cols _ hnd)) rfl rfl]
    split_ifs with hfin
    · rfl
    · rfl
  case h_2 a0 a1 a b heq =>
    rw [if_congr (halfYearPair_iff_toFinset cols ⟨[a0, a1, a, b]⟩
      (nodup_quarterDigits cols _ hnd)) rfl rfl]
    split_ifs with hfin
    · rfl
    · rfl
  case h_3 => rfl

lemma find?_rename_self {l : List String} (f : String → String)
    (hinj : ∀ c1 ∈ l, ∀ c2 ∈ l, f c1 = f c2 → c1 = c2)
    {c : String} (hc : c ∈ l) :
    l.find? (fun c0 => f c0 == f c) = some c := by
  induction l with
  | nil => cases hc
  | cons a t ih =>
      by_cases hpa : (f a == f c) = true
      · rw [show List.find? (fun c0 => f c0 == f c) (a :: t) = some a from
          List.find?_cons_of_pos t hpa]
        exact congrArg some
          (hinj a (List.mem_cons_self a t) c hc (beq_iff_eq.mp hpa))
      · have hct : c ∈ t := by
          rcases List.mem_cons.mp hc with rfl | h
          · exact absurd (by simp) hpa
          · exact h
        rw [show List.find? (fun c0 => f c0 == f c) (a :: t) =
            List.find? (fun c0 => f c0 == f c) t from
          List.find?_cons_of_neg t (by simpa using hpa)]
        exact ih
          (fun c1 h1 c2 h2 => hinj c1 (List.mem_cons_of_mem a h1) c2
            (List.mem_cons_of_mem a h2)) hct

/-- C5: under the half-year inference of `detect_and_convert_half_years`,
a column `yQ2` is renamed to `yH1` and `yQ4` to `yH2` exactly when the set
of quarter subperiod digits present for year `y` equals the two-digit set
containing 2 and 4; every other column - other quarters of such a year,
quarters of years with any other subperiod set, and non-quarter columns -
is left unchanged; and the renaming carries every cell value unchanged to
the renamed label. -/
theorem c5_half_year_inference (Q : Table) (hnd : Q.cols.Nodup)
    (hinj : ∀ c1 ∈ Q.cols, ∀ c2 ∈ Q.cols,
      renameMap Q.cols c1 = renameMap Q.cols c2 → c1 = c2) :
    (∀ c, renameMap Q.cols c = specRename Q.cols c) ∧
    (applyRename Q).rows = Q.rows ∧
    (applyRename Q).cols = Q.cols.map (renameMap Q.cols) ∧
    (∀ c ∈ Q.cols, ∀ r,
      (applyRename Q).cell r (renameMap Q.cols c) = Q.cell r c) := by
  refine ⟨renameMap_eq_specRename Q.cols hnd, rfl, rfl, ?_⟩
  intro c hc r
  show (match Q.cols.find? fun c0 => renameMap Q.cols c0 == renameMap Q.cols c with
    | some c0 => Q.cell r c0
    | none => none) = Q.cell r c
  rw [find?_rename_self (renameMap Q.cols) hinj hc]

/-- Concrete quarterly table whose 2022 has exactly the quarters Q2 and Q4
and whose 2021 has a lone Q2. -/
def tblQuarterlyC : Table where
  rows := ["m"]
  cols := ["2022Q2", "2022Q4", "2021Q2"]
  cell := fun r c => if r = "m" && c = "2022Q2" then some (.str ['5']) else none

/-- C5 (witness): on the concrete table, 2022Q2 and 2022Q4 are renamed to
2022H1 and 2022H2, the lone 2021Q2 is untouched, and the cell value moves
unchanged under the new label. -/
theorem c5_witness :
    renameMap tblQuarterlyC.cols "2022Q2" = specRename tblQuarterlyC.cols "2022Q2" ∧
    (applyRename tblQuarterlyC).cell "m" (renameMap tblQuarterlyC.cols "2022Q2") =
      tblQuarterlyC.cell "m" "2022Q2" :=
  ⟨(c5_half_year_inference tblQuarterlyC (by decide) (by decide)).1 "2022Q2",
   (c5_half_year_inference tblQuarterlyC (by decide) (by decide)).2.2.2 "2022Q2"
     (by decide) "m"⟩

/-- C6: the merged row-label sequence consists of the annual source's
labels first, in their original relative order, followed by those
quarterly-source labels not already present, in their original relative
order; it has no duplicates and contains exactly the labels of the two
sources. -/
theorem c6_merged_row_labels (A Q : Table) (ha : A.rows.Nodup)
    (hq : Q.rows.Nodup) :
    (populate A (applyRename Q)).rows =
      A.rows ++ Q.rows.filter (fun r => decide (r ∉ A.rows)) ∧
    (populate A (applyRename Q)).rows.Nodup ∧
    (∀ r, r ∈ (populate A (applyRename Q)).rows ↔
      r ∈ A.rows ∨ r ∈ Q.rows) := by
  have hrows : (populate A (applyRename Q)).rows =
      dedupFirst (A.rows ++ Q.rows) := rfl
  refine ⟨?_, ?_, ?_⟩
  · rw [hrows, dedupFirst_append _ _ ha hq]
  · rw [hrows]
    exact nodup_dedupFirst _
  · intro r
    rw [hrows, mem_dedupFirst]
    exact List.mem_append

/-- Annual table for the row-merging witness. -/
def tblAnnualR : Table where
  rows := ["revenue", "profit"]
  cols := []
  cell := fun _ _ => none

/-- Quarterly table for the row-merging witness. -/
def tblQuarterlyR : Table where
  rows := ["profit", "dividends"]
  cols := []
  cell := fun _ _ => none

/-- C6 (witness): concrete row-label merge keeping annual order first. -/
theorem c6_witness :
    (populate tblAnnualR (applyRename tblQuarterlyR)).rows =
      tblAnnualR.rows ++
        tblQuarterlyR.rows.filter (fun r => decide (r ∉ tblAnnualR.rows)) :=
  (c6_merged_row_labels tblAnnualR tblQuarterlyR (by decide) (by decide)).1

/-- C7: the cell population step takes a column's cells from the annual
source whenever the label is among the annual columns and from the
(renamed) quarterly source otherwise, and rows absent from the owning
source are left missing. -/
theorem c7_cell_population (A QR : Table) (hwa : A.WF) (hwq : QR.WF)
    (r c : String) :
    (c ∈ A.cols → (populate A QR).cell r c = A.cell r c) ∧
    (c ∉ A.cols → (populate A QR).cell r c = QR.cell r c) ∧
    (c ∈ A.cols → r ∉ A.rows → (populate A QR).cell r c = none) ∧
    (c ∉ A.cols → r ∉ QR.rows → (populate A QR).cell r c = none) := by
  have hcell : (populate A QR).cell r c =
      if c ∈ A.cols then A.cell r c
      else if c ∈ QR.cols then QR.cell r c else none := rfl
  refine ⟨?_, ?_, ?_, ?_⟩
  · intro hca
    rw [hcell, if_pos hca]
  · intro hca
    rw [hcell, if_neg hca]
    by_cases hcq : c ∈ QR.cols
    · rw [if_pos hcq]
    · rw [if_neg hcq, hwq r c (Or.inr hcq)]
  · intro hca hra
    rw [hcell, if_pos hca]
    exact hwa r c (Or.inl hra)
  · intro hca hrq
    rw [hcell, if_neg hca]
    by_cases hcq : c ∈ QR.cols
    · rw [if_pos hcq]
      exact hwq r c (Or.inl hrq)
    · rw [if_neg hcq]

/-- Annual table for the cell-population witness. -/
def tblAnnualW : Table where
  rows := ["m"]
  cols := ["2022"]
  cell := fun _ _ => none

/-- Quarterly table for the cell-population witness. -/
def tblQuarterlyW : Table where
  rows := ["m"]
  cols := ["2022Q1"]
  cell := fun _ _ => none

/-- C7 (witness): the annual source owns its year column concretely. -/
theorem c7_witness :
    (populate tblAnnualW tblQuarterlyW).cell "m" "2022" =
      tblAnnualW.cell "m" "2022" :=
  (c7_cell_population tblAnnualW tblQuarterlyW (fun _ _ _ => rfl)
    (fun _ _ _ => rfl) "m" "2022").1 (by decide)

lemma cleanChars_eq (l : List Char) :
    cleanChars l =
      if containsDCD (l.filter fun c => c ≠ ' ') then
        (l.filter fun c => c ≠ ' ').map commaToDot
      else l.filter fun c => c ≠ ' ' := rfl

lemma mem_filter_ne_space {l : List Char} {c : Char}
    (h : c ∈ l.filter fun c => c ≠ ' ') : c ≠ ' ' := by
  have := (List.mem_filter.mp h).2
  simpa using this

lemma commaToDot_ne_space {c : Char} (h : c ≠ ' ') : commaToDot c ≠ ' ' := by
  unfold commaToDot
  split_ifs with h1
  · decide
  · exact h

lemma commaToDot_ne_comma (c : Char) : commaToDot c ≠ ',' := by
  unfold commaToDot
  split_ifs with h1
  · decide
  · exact h1

lemma noSpace_filter_eq (l : List Char) (h : ∀ c ∈ l, c ≠ ' ') :
    (l.filter fun c => c ≠ ' ') = l := by
  rw [List.filter_eq_self]
  intro a ha
  simpa using h a ha

lemma containsDCD_false_of_no_comma :
    ∀ l : List Char, (∀ c ∈ l, c ≠ ',') → containsDCD l = false := by
  intro l
  induction l with
  | nil => intro _; rfl
  | cons a t ih =>
      intro h
      cases t with
      | nil => rfl
      | cons b t2 =>
          cases t2 with
          | nil => rfl
          | cons c r =>
              have hb : b ≠ ',' := h b (by simp)
              have h2 := ih fun x hx => h x (List.mem_cons_of_mem a hx)
              simp only [containsDCD, h2, Bool.or_false]
              simp [hb]

/-- C8: numeric cleaning first removes every space character, then
replaces commas by periods exactly when the space-stripped text contains a
digit-comma-digit pattern; text without the pattern keeps its commas; the
two scenario D values behave as claimed and non-text values pass through
unchanged. -/
theorem c8_numeric_cleaning (l : List Char) :
    (∀ c ∈ cleanChars l, c ≠ ' ') ∧
    (containsDCD (l.filter fun c => c ≠ ' ') = false →
      cleanChars l = l.filter fun c => c ≠ ' ') ∧
    (containsDCD (l.filter fun c => c ≠ ' ') = true →
      cleanChars l = (l.filter fun c => c ≠ ' ').map commaToDot) ∧
    clean_value (.str "1 234,56".data) = .str "1234.56".data ∧
    clean_value (.str "N/A, примечание".data) = .str "N/A,примечание".data ∧
    (∀ n, clean_value (.nonStr n) = .nonStr n) := by
  refine ⟨?_, ?_, ?_, by decide, by decide, fun n => rfl⟩
  · intro c hc
    rw [cleanChars_eq] at hc
    by_cases hd : containsDCD (l.filter fun c => c ≠ ' ') = true
    · rw [if_pos hd] at hc
      rcases List.mem_map.mp hc with ⟨c0, hc0, rfl⟩
      exact commaToDot_ne_space (mem_filter_ne_space hc0)
    · rw [if_neg hd] at hc
      exact mem_filter_ne_space hc
  · intro h
    rw [cleanChars_eq, if_neg fun hc => Bool.false_ne_true (h ▸ hc)]
  · intro h
    rw [cleanChars_eq, if_pos h]

/-- C8 (witness): the digit-comma-digit branch taken at the scenario D
value. -/
theorem c8_witness :
    cleanChars "1 234,56".data =
      ("1 234,56".data.filter fun c => c ≠ ' ').map commaToDot :=
  (c8_numeric_cleaning "1 234,56".data).2.2.1 (by decide)

/-- C9: numeric cleaning is idempotent on every cell value. -/
theorem c9_cleaning_idempotent (v : CellVal) :
    clean_value (clean_value v) = clean_value v := by
  cases v with
  | nonStr n => rfl
  | str l =>
      show CellVal.str (cleanChars (cleanChars l)) = CellVal.str (cleanChars l)
      refine congrArg CellVal.str ?_
      have htn : ∀ c ∈ (l.filter fun c => c ≠ ' '), c ≠ ' ' :=
        fun c hc => mem_filter_ne_space hc
      by_cases hd : containsDCD (l.filter fun c => c ≠ ' ') = true
      · have h1 : cleanChars l = (l.filter fun c => c ≠ ' ').map commaToDot := by
          rw [cleanChars_eq, if_pos hd]
        have hmn : ∀ c ∈ (l.filter fun c => c ≠ ' ').map commaToDot, c ≠ ' ' := by
          intro c hc
          rcases List.mem_map.mp hc with ⟨c0, hc0, rfl⟩
          exact commaToDot_ne_space (htn c0 hc0)
        have hnc : ∀ c ∈ (l.filter fun c => c ≠ ' ').map commaToDot, c ≠ ',' := by
          intro c hc
          rcases List.mem_map.mp hc with ⟨c0, _, rfl⟩
          exact commaToDot_ne_comma c0
        rw [h1, cleanChars_eq, noSpace_filter_eq _ hmn,
          containsDCD_false_of_no_comma _ hnc]
        simp
      · have h1 : cleanChars l = l.filter fun c => c ≠ ' ' := by
          rw [cleanChars_eq, if_neg (by simpa using hd)]
        rw [h1, cleanChars_eq, noSpace_filter_eq _ htn,
          if_neg (by simpa using hd)]

/-- Specification-side date-prefix test, written from claim C10: the first
ten characters are two digits, a literal dot, two digits, a literal dot
and four digits. -/
def datePrefixOk (l : List Char) : Bool :=
  match l with
  | d1 :: d2 :: p1 :: m1 :: m2 :: p2 :: y1 :: y2 :: y3 :: y4 :: _ =>
      d1.isDigit && d2.isDigit && p1 == '.' && m1.isDigit && m2.isDigit &&
        p2 == '.' && y1.isDigit && y2.isDigit && y3.isDigit && y4.isDigit
  | _ => false

/-- C10: on a string whose first ten characters match `dd.mm.yyyy` with
literal dots and digit groups, `convert_date_format` returns exactly the
transposed `yyyy-mm-dd`, discarding everything after the prefix and
performing no calendar validation (so `99.99.2026` becomes `2026-99-99`);
every string without such a prefix, and every non-text value, is returned
unchanged. -/
theorem c10_date_canonicalization (d1 d2 m1 m2 y1 y2 y3 y4 : Char)
    (rest : List Char)
    (h1 : d1.isDigit = true) (h2 : d2.isDigit = true)
    (h3 : m1.isDigit = true) (h4 : m2.isDigit = true)
    (h5 : y1.isDigit = true) (h6 : y2.isDigit = true)
    (h7 : y3.isDigit = true) (h8 : y4.isDigit = true) :
    convertDateChars
        (d1 :: d2 :: '.' :: m1 :: m2 :: '.' :: y1 :: y2 :: y3 :: y4 :: rest) =
      [y1, y2, y3, y4, '-', m1, m2, '-', d1, d2] ∧
    (∀ l, datePrefixOk l = false → convertDateChars l = l) ∧
    (∀ n, convert_date_format (.nonStr n) = .nonStr n) ∧
    convert_date_format (.str "99.99.2026".data) = .str "2026-99-99".data ∧
    convert_date_format (.str "31.12.2022 x".data) = .str "2022-12-31".data := by
  refine ⟨?_, ?_, fun n => rfl, by decide, by decide⟩
  · simp [convertDateChars, h1, h2, h3, h4, h5, h6, h7, h8]
  · intro l hpre
    rcases l with _ | ⟨c1, _ | ⟨c2, _ | ⟨c3, _ | ⟨c4, _ | ⟨c5, _ | ⟨c6, _ |
      ⟨c7, _ | ⟨c8, _ | ⟨c9, _ | ⟨c10, r⟩⟩⟩⟩⟩⟩⟩⟩⟩⟩ <;>
      first
        | rfl
        | (simp only [datePrefixOk] at hpre
           simp only [convertDateChars]
           rw [if_neg]
           simpa using hpre)

/-- C10 (witness): the no-validation transposition at a concrete date. -/
theorem c10_witness :
    convertDateChars
        ('9' :: '9' :: '.' :: '9' :: '9' :: '.' :: '2' :: '0' :: '2' :: '6' :: []) =
      ['2', '0', '2', '6', '-', '9', '9', '-', '9', '9'] :=
  (c10_date_canonicalization '9' '9' '9' '9' '2' '0' '2' '6' []
    (by decide) (by decide) (by decide) (by decide)
    (by decide) (by decide) (by decide) (by decide)).1

end JoinCsv
